import Mathlib

/-!
Shallow embedding of `forklift` (src/main.rs): a bounded-concurrency,
rate-limit-aware pagination engine that lists organization-owned forks of a
GitHub repository.  Pure logic (retry classification, backoff schedule,
aggregation, filtering, URL parsing) is embedded as executable Lean
functions; the orchestrator's task interleaving is embedded as a small-step
relation on an explicit scheduler state.  External collaborators (the
network, the `url` crate's parser) are parameters.
-/

namespace Forklift

/-- The owning account of a fork, as read by the filter in `main`
(src/main.rs lines 183-184).  `rtype` embeds the source field `type`
(spelled with a raw-identifier marker in Rust). -/
structure Owner where
  login : String
  rtype : String
deriving DecidableEq, Repr

/-- A Fork Record: the fields of `octocrab::models::Repository` that the
program reads (src/main.rs lines 182-189).  `html_url` is carried as its
rendered string. -/
structure Repository where
  owner : Option Owner
  name : String
  html_url : Option String
deriving DecidableEq, Repr

/-- Embedding of `octocrab::Error` keeping exactly the structure the retry
classifier at src/main.rs lines 282-289 reads: the `GitHub` variant carries
an HTTP status code and a message; every other variant is opaque. -/
inductive OctoError where
  | github (status : Nat) (message : String)
  | other (description : String)
deriving DecidableEq, Repr

/-! ## Retry Wrapper (`fetch_page_with_retry`, src/main.rs lines 254-307) -/

/-- `MAX_RETRIES` constant from src/main.rs line 261. -/
def MAX_RETRIES : Nat := 3

/-- Rust `to_ascii_lowercase` on one character: lowercases `A`..`Z` only. -/
def asciiToLower (c : Char) : Char :=
  if 'A' ≤ c ∧ c ≤ 'Z' then Char.ofNat (c.toNat + 32) else c

/-- `pat` occurs at the head of `hay` (helper for substring search,
embedding Rust `str::contains`). -/
def matchesAt : List Char → List Char → Bool
  | [], _ => true
  | _ :: _, [] => false
  | p :: ps, h :: hs => p == h && matchesAt ps hs

/-- `pat` occurs contiguously somewhere in `hay` (Rust `str::contains`). -/
def containsSub (hay pat : List Char) : Bool :=
  match hay with
  | [] => matchesAt pat []
  | _ :: t => matchesAt pat hay || containsSub t pat

/-- `source.message.to_ascii_lowercase().contains("rate limit")`
(src/main.rs line 285). -/
def messageHasRateLimit (msg : String) : Bool :=
  containsSub (msg.toList.map asciiToLower) "rate limit".toList

/-- The `should_retry` classification computed at src/main.rs lines 282-289:
retry exactly when the error is a GitHub error with status 403 Forbidden
whose message contains (ASCII-case-insensitively) "rate limit", and fewer
than `MAX_RETRIES` retries have been made; every other error is not
retried. -/
def shouldRetry (err : OctoError) (attempts : Nat) : Bool :=
  match err with
  | .github status message =>
      status == 403 && messageHasRateLimit message && decide (attempts < MAX_RETRIES)
  | .other _ => false

/-- The secondary-rate-limit classification, as a proposition on the error
alone (status 403 Forbidden and a rate-limit message). -/
def isSecondaryRateLimit : OctoError → Prop
  | .github status message => status = 403 ∧ messageHasRateLimit message = true
  | .other _ => False

/-- The retry loop of `fetch_page_with_retry` (src/main.rs lines 263-306),
entered with `attempts` retries already made.  The fetch attempt number `k`
(0-based) is modelled by `fetcher k`, embedding the `.send().await` call.
Returns the final result together with the list of backoff sleeps, in
seconds, performed before each retry (`sleep(Duration::from_secs(wait))`
at line 299, with `wait = 2^attempts` computed after the increment at
line 292). -/
def fetchAux (fetcher : Nat → Except OctoError (List Repository))
    (attempts : Nat) : Except OctoError (List Repository) × List Nat :=
  match fetcher attempts with
  | .ok items => (.ok items, [])
  | .error err =>
    if hr : shouldRetry err attempts = true then
      have hlt : attempts < MAX_RETRIES := by
        cases err with
        | github status message =>
            simp only [shouldRetry, Bool.and_eq_true, decide_eq_true_eq] at hr
            exact hr.2
        | other d => simp [shouldRetry] at hr
      let r := fetchAux fetcher (attempts + 1)
      (r.1, 2 ^ (attempts + 1) :: r.2)
    else
      (.error err, [])
termination_by MAX_RETRIES - attempts
decreasing_by omega

/-- `fetch_page_with_retry` starts its loop with `attempts = 0`
(src/main.rs line 260). -/
def fetch_page_with_retry (fetcher : Nat → Except OctoError (List Repository)) :
    Except OctoError (List Repository) × List Nat :=
  fetchAux fetcher 0

/-! ## Aggregation and filtering (`main`, src/main.rs lines 116-195) -/

/-- Outcome of joining one spawned page task, embedding the nested
`Result` matched at src/main.rs lines 158-171: task completed with items,
task completed with a fetch error, or the task itself failed to join. -/
inductive TaskOutcome where
  | success (items : List Repository)
  | fetchFailure (e : OctoError)
  | joinFailure (description : String)
deriving DecidableEq, Repr

/-- The terminating error of a run, after the conversions `e.into()` at
src/main.rs lines 165 and 169. -/
inductive RunError where
  | fetch (e : OctoError)
  | join (description : String)
deriving DecidableEq, Repr

/-- The error a task outcome makes the run return, if any. -/
def errorOf : TaskOutcome → Option RunError
  | .success _ => none
  | .fetchFailure e => some (.fetch e)
  | .joinFailure d => some (.join d)

/-- The `while let Some(res) = tasks.join_next().await` collection loop
(src/main.rs lines 157-172): `outcomes` lists the task results in
completion order; `acc` is `all_forks`.  Each success extends `all_forks`;
the first failure returns its error at once, never reading the remaining
outcomes. -/
def collectLoop (acc : List Repository) :
    List TaskOutcome → Except RunError (List Repository)
  | [] => .ok acc
  | .success items :: rest => collectLoop (acc ++ items) rest
  | .fetchFailure e :: _ => .error (.fetch e)
  | .joinFailure d :: _ => .error (.join d)

/-- The organization filter and projection at src/main.rs lines 180-195:
keep records whose owner exists and has type "Organization", projecting
each to `(owner.login, fork.name, url-or-empty-string)`; an absent
`html_url` becomes `""` via `unwrap_or_default()`. -/
def filterOrgForks (all_forks : List Repository) : List (String × String × String) :=
  all_forks.filterMap (fun fork =>
    fork.owner.bind (fun o =>
      if o.rtype == "Organization" then
        some (o.login, fork.name, fork.html_url.getD "")
      else
        none))

/-- The tail of `main` after the spawned tasks are joined: on a collection
error the run returns that error (before any report is produced); on
success the aggregate is filtered into the report rows handed to
`write_results` (src/main.rs lines 157-209). -/
def aggregateAndReport (firstPage : List Repository) (outcomes : List TaskOutcome) :
    Except RunError (List (String × String × String)) :=
  match collectLoop firstPage outcomes with
  | .error e => .error e
  | .ok all => .ok (filterOrgForks all)

/-- The page indices spawned by the `for page in 2..=total_pages` loop
(src/main.rs line 136), or none at all when `number_of_pages()` returns
`None` (src/main.rs lines 120 and 175). -/
def spawnedPages (total_pages : Option Nat) : List Nat :=
  match total_pages with
  | some total => List.range' 2 (total - 1)
  | none => []

/-- End-to-end data flow of `main` from the first page onward:
`pageOutcome p` is the joined outcome of page `p`'s task and
`completionOrder` lists the spawned pages in the order their tasks
complete (a permutation of `spawnedPages total_pages`). -/
def runMain (firstPage : List Repository) (pageOutcome : Nat → TaskOutcome)
    (completionOrder : List Nat) :
    Except RunError (List (String × String × String)) :=
  aggregateAndReport firstPage (completionOrder.map pageOutcome)

/-! ## Concurrency Controller / Pagination Orchestrator scheduler model

The spawn loop at src/main.rs lines 136-154 acquires an owned semaphore
permit (`semaphore.clone().acquire_owned().await`, line 140) in the
orchestrator itself before `tasks.spawn`; the spawned task body moves the
permit in (`let _permit = permit`, line 145), runs `fetch_page_with_retry`
— all of its retries and backoff sleeps included — and drops the permit
when the task ends.  The state records the pages not yet spawned (in loop
order), the free permits of the semaphore, and the pages whose tasks are
in flight (each holding one permit). -/
structure OrchState where
  pending : List Nat
  available : Nat
  running : List Nat
deriving DecidableEq, Repr

/-- One scheduler step: `spawn` is one iteration of the orchestrator's
loop — enabled only when a permit is free, since the orchestrator awaits
`acquire_owned` before `tasks.spawn` — moving the next page into flight
with one permit consumed; `complete` is some in-flight page's fetch
resolving (success or final failure), handing its permit back. -/
inductive OrchStep : OrchState → OrchState → Prop where
  | spawn (p : Nat) (rest : List Nat) (avail : Nat) (run : List Nat)
      (h : 0 < avail) :
      OrchStep ⟨p :: rest, avail, run⟩ ⟨rest, avail - 1, p :: run⟩
  | complete (p : Nat) (pend : List Nat) (avail : Nat) (run₁ run₂ : List Nat) :
      OrchStep ⟨pend, avail, run₁ ++ p :: run₂⟩ ⟨pend, avail + 1, run₁ ++ run₂⟩

/-- Initial scheduler state: all pages 2..=total pending, the semaphore
holding `concurrency` permits (src/main.rs line 133), nothing in flight. -/
def initState (concurrency : Nat) (pages : List Nat) : OrchState :=
  ⟨pages, concurrency, []⟩

/-! ## URL parsing (`parse_github_url`, src/main.rs lines 220-251) -/

/-- The error enum of the program (src/main.rs lines 47-66), restricted to
the variants the embedded code can produce. -/
inductive ForkliftError where
  | MissingGithubToken
  | InvalidUrl (raw : String)
  | InvalidDomain (domain : String)
  | InvalidPathSegments (segments : List String)
  | OctocrabError (e : OctoError)
deriving DecidableEq, Repr

/-- The extracted repository info (src/main.rs lines 70-73). -/
structure RepoInfo where
  owner : String
  name : String
deriving DecidableEq, Repr

/-- What `parse_github_url` reads from a parsed `url::Url`: its `domain()`
and its `path_segments()` (the latter absent for cannot-be-a-base URLs). -/
structure ParsedUrl where
  domain : Option String
  path_segments : Option (List String)
deriving DecidableEq, Repr

/-- The scheme-prepending step at src/main.rs lines 222-226. -/
def withScheme (raw_url : String) : String :=
  if raw_url.startsWith "http://" || raw_url.startsWith "https://" then
    raw_url
  else
    "https://" ++ raw_url

/-- The non-empty path segments `parse_github_url` keeps (src/main.rs
lines 237-241): `path_segments()` collected, defaulted to empty, with
empty segments removed. -/
def keptSegments (parsed : ParsedUrl) : List String :=
  (parsed.path_segments.getD []).filter (fun s => !s.isEmpty)

/-- `parse_github_url` (src/main.rs lines 220-251), parameterized by the
`url` crate's parser `urlParse` (returning `none` where `Url::parse`
errors).  Prepend a scheme when missing, parse, require domain exactly
"github.com", drop empty path segments, require at least two remaining,
and return the first two as owner and repo (further segments ignored). -/
def parse_github_url (urlParse : String → Option ParsedUrl) (raw_url : String) :
    Except ForkliftError RepoInfo :=
  match urlParse (withScheme raw_url) with
  | none => .error (.InvalidUrl raw_url)
  | some parsed =>
    if parsed.domain ≠ some "github.com" then
      .error (.InvalidDomain (parsed.domain.getD ""))
    else
      if h : (keptSegments parsed).length < 2 then
        .error (.InvalidPathSegments (keptSegments parsed))
      else
        .ok ⟨(keptSegments parsed).get ⟨0, by omega⟩,
             (keptSegments parsed).get ⟨1, by omega⟩⟩

/-! ## Concrete inputs used by the witness theorems -/

/-- An organization-owned fork with no `html_url`. -/
def demoOrgFork : Repository :=
  ⟨some ⟨"acme", "Organization"⟩, "forklift", none⟩

/-- A user-owned fork. -/
def demoUserFork : Repository :=
  ⟨some ⟨"bob", "User"⟩, "forklift", some "https://github.com/bob/forklift"⟩

/-- A fork record whose owner field is absent. -/
def demoOwnerless : Repository :=
  ⟨none, "mystery", some "https://example.org/mystery"⟩

/-- A secondary-rate-limit error as GitHub reports it. -/
def rateLimitErr : OctoError :=
  .github 403 "You have exceeded a secondary rate limit."

/-- A plain not-found error. -/
def notFoundErr : OctoError := .github 404 "Not Found"

/-- A stub for the `url` crate's parser, defined on one input. -/
def ghUrlStub : String → Option ParsedUrl := fun s =>
  if s = "https://github.com/rust-lang/rust/tree/master" then
    some ⟨some "github.com", some ["rust-lang", "rust", "tree", "master"]⟩
  else
    none

/-! ## Helper lemmas -/

theorem shouldRetry_iff (err : OctoError) (attempts : Nat) :
    shouldRetry err attempts = true ↔
      isSecondaryRateLimit err ∧ attempts < MAX_RETRIES := by
  cases err with
  | github status message =>
      simp [shouldRetry, isSecondaryRateLimit, and_assoc]
  | other d => simp [shouldRetry, isSecondaryRateLimit]

theorem fetchAux_ok (fetcher : Nat → Except OctoError (List Repository))
    (a : Nat) (items : List Repository) (h : fetcher a = .ok items) :
    fetchAux fetcher a = (.ok items, []) := by
  unfold fetchAux
  rw [h]

theorem fetchAux_noRetry (fetcher : Nat → Except OctoError (List Repository))
    (a : Nat) (err : OctoError) (h : fetcher a = .error err)
    (hr : ¬ shouldRetry err a = true) :
    fetchAux fetcher a = (.error err, []) := by
  unfold fetchAux
  rw [h]
  simp [hr]

theorem fetchAux_retry (fetcher : Nat → Except OctoError (List Repository))
    (a : Nat) (err : OctoError) (h : fetcher a = .error err)
    (hr : shouldRetry err a = true) :
    fetchAux fetcher a =
      ((fetchAux fetcher (a + 1)).1, 2 ^ (a + 1) :: (fetchAux fetcher (a + 1)).2) := by
  conv_lhs => unfold fetchAux
  rw [h]
  simp [hr]

/-! ## Claim theorems -/

/-- C2: the Retry Wrapper retries a failed fetch attempt if and only if the
error is a GitHub error with HTTP status 403 whose message contains the
case-insensitive substring "rate limit" and fewer than `MAX_RETRIES = 3`
retries have already been made; every other error — other 403s, 404s,
non-HTTP errors — is returned immediately with zero retries (an empty
backoff-sleep list). -/
theorem retry_classification (fetcher : Nat → Except OctoError (List Repository))
    (a : Nat) (err : OctoError) (h : fetcher a = .error err) :
    (0 < (fetchAux fetcher a).2.length ↔ isSecondaryRateLimit err ∧ a < MAX_RETRIES)
    ∧ (¬ (isSecondaryRateLimit err ∧ a < MAX_RETRIES) →
        fetchAux fetcher a = (.error err, [])) := by
  by_cases hr : shouldRetry err a = true
  · have h1 := fetchAux_retry fetcher a err h hr
    constructor
    · rw [h1]
      simp [(shouldRetry_iff err a).mp hr]
    · intro hc
      exact absurd ((shouldRetry_iff err a).mp hr) hc
  · have h1 := fetchAux_noRetry fetcher a err h hr
    constructor
    · rw [h1]
      simp only [List.length_nil, Nat.lt_irrefl, false_iff]
      intro hc
      exact hr ((shouldRetry_iff err a).mpr hc)
    · intro _
      exact h1

/-- C2 witness: a 404 error is returned immediately with zero retries. -/
theorem retry_classification_witness :
    (0 < (fetchAux (fun _ => .error notFoundErr) 0).2.length ↔
      isSecondaryRateLimit notFoundErr ∧ 0 < MAX_RETRIES)
    ∧ (¬ (isSecondaryRateLimit notFoundErr ∧ 0 < MAX_RETRIES) →
        fetchAux (fun _ => .error notFoundErr) 0 = (.error notFoundErr, [])) :=
  retry_classification (fun _ => .error notFoundErr) 0 notFoundErr rfl

/-- C3: when every fetch attempt fails with a secondary-rate-limit
classification, the Retry Wrapper performs exactly 3 retries, sleeping
2, 4 and 8 seconds before retries 1, 2 and 3, and after the 3rd retry
fails it returns that attempt's error as the final result instead of
retrying again. -/
theorem retry_exhaustion (fetcher : Nat → Except OctoError (List Repository))
    (errs : Nat → OctoError)
    (herr : ∀ k, k ≤ MAX_RETRIES → fetcher k = .error (errs k))
    (hrl : ∀ k, k ≤ MAX_RETRIES → isSecondaryRateLimit (errs k)) :
    fetch_page_with_retry fetcher = (.error (errs MAX_RETRIES), [2, 4, 8]) := by
  have hs : ∀ k, k < MAX_RETRIES → shouldRetry (errs k) k = true := fun k hk =>
    (shouldRetry_iff (errs k) k).mpr ⟨hrl k (Nat.le_of_lt hk), hk⟩
  have h3 : fetchAux fetcher 3 = (.error (errs 3), []) := by
    refine fetchAux_noRetry fetcher 3 (errs 3) (herr 3 (by decide)) ?_
    intro hc
    have := ((shouldRetry_iff (errs 3) 3).mp hc).2
    simp [MAX_RETRIES] at this
  have h2 := fetchAux_retry fetcher 2 (errs 2) (herr 2 (by decide)) (hs 2 (by decide))
  have h1 := fetchAux_retry fetcher 1 (errs 1) (herr 1 (by decide)) (hs 1 (by decide))
  have h0 := fetchAux_retry fetcher 0 (errs 0) (herr 0 (by decide)) (hs 0 (by decide))
  show fetchAux fetcher 0 = (.error (errs MAX_RETRIES), [2, 4, 8])
  rw [h0, h1, h2, h3]
  norm_num [MAX_RETRIES]

/-- C3 witness: a fetcher that always reports the secondary rate limit is
retried 3 times with sleeps of 2, 4 and 8 seconds, then fails. -/
theorem retry_exhaustion_witness :
    fetch_page_with_retry (fun _ => .error rateLimitErr) =
      (.error rateLimitErr, [2, 4, 8]) :=
  retry_exhaustion (fun _ => .error rateLimitErr) (fun _ => rateLimitErr)
    (fun _ _ => rfl) (fun _ _ => ⟨rfl, by decide⟩)

theorem flatten_perm {α : Type _} {l₁ l₂ : List (List α)} (h : l₁.Perm l₂) :
    l₁.flatten.Perm l₂.flatten := by
  induction h with
  | nil => simp
  | cons x h ih => simpa using ih.append_left x
  | swap x y l =>
      simp only [List.flatten_cons, ← List.append_assoc]
      exact List.perm_append_comm.append_right _
  | trans h₁ h₂ ih₁ ih₂ => exact ih₁.trans ih₂

theorem collectLoop_map_success (acc : List Repository)
    (pages : List (List Repository)) :
    collectLoop acc (pages.map TaskOutcome.success) = .ok (acc ++ pages.flatten) := by
  induction pages generalizing acc with
  | nil => simp [collectLoop]
  | cons p ps ih => simp [collectLoop, ih, List.append_assoc]

theorem collectLoop_first_error (bad : TaskOutcome) (e : RunError)
    (hbad : errorOf bad = some e) :
    ∀ (pre : List TaskOutcome), (∀ t ∈ pre, ∃ items, t = .success items) →
      ∀ (acc : List Repository) (rest : List TaskOutcome),
        collectLoop acc (pre ++ bad :: rest) = .error e := by
  intro pre
  induction pre with
  | nil =>
      intro _ acc rest
      cases bad with
      | success items => simp [errorOf] at hbad
      | fetchFailure e' =>
          simp only [errorOf, Option.some.injEq] at hbad
          simp [collectLoop, hbad]
      | joinFailure d =>
          simp only [errorOf, Option.some.injEq] at hbad
          simp [collectLoop, hbad]
  | cons t ts ih =>
      intro hpre acc rest
      obtain ⟨items, ht⟩ := hpre t (by simp)
      subst ht
      simp only [List.cons_append, collectLoop]
      exact ih (fun u hu => hpre u (by simp [hu])) (acc ++ items) rest

/-- C1: in a run with no unrecoverable error, the final aggregate is
exactly the union of page 1's records and every spawned page's records —
no omissions, and no duplicates as long as each remote fork appears on
exactly one page — and as a multiset it is the same for every permutation
of the order in which the page tasks complete. -/
theorem aggregate_union (first : List Repository)
    (pages completionOrder : List (List Repository))
    (hperm : completionOrder.Perm pages) :
    ∃ result,
      collectLoop first (completionOrder.map TaskOutcome.success) = .ok result ∧
      result.Perm (first ++ pages.flatten) ∧
      (∀ x, x ∈ result ↔ x ∈ first ∨ ∃ p ∈ pages, x ∈ p) ∧
      ((∀ l ∈ first :: pages, l.Nodup) →
        (first :: pages).Pairwise List.Disjoint → result.Nodup) := by
  have hp : (first ++ completionOrder.flatten).Perm (first ++ pages.flatten) :=
    (flatten_perm hperm).append_left first
  refine ⟨first ++ completionOrder.flatten,
    collectLoop_map_success first completionOrder, hp, ?_, ?_⟩
  · intro x
    rw [hp.mem_iff]
    simp [List.mem_append, List.mem_flatten]
  · intro hnd hdis
    have hj : (first :: pages).flatten.Nodup :=
      List.nodup_flatten.mpr ⟨hnd, hdis⟩
    have h2 : (first ++ pages.flatten).Nodup := by
      simpa [List.flatten_cons] using hj
    exact hp.symm.nodup h2

/-- C1 witness: two spawned pages completing in reversed order still yield
the union of all three pages. -/
theorem aggregate_union_witness :
    ∃ result,
      collectLoop [demoOrgFork]
          ([[demoOwnerless], [demoUserFork]].map TaskOutcome.success) = .ok result ∧
      result.Perm ([demoOrgFork] ++ [[demoUserFork], [demoOwnerless]].flatten) ∧
      (∀ x, x ∈ result ↔ x ∈ [demoOrgFork] ∨
        ∃ p ∈ [[demoUserFork], [demoOwnerless]], x ∈ p) ∧
      ((∀ l ∈ [demoOrgFork] :: [[demoUserFork], [demoOwnerless]], l.Nodup) →
        ([demoOrgFork] :: [[demoUserFork], [demoOwnerless]]).Pairwise List.Disjoint →
        result.Nodup) :=
  aggregate_union [demoOrgFork] [[demoUserFork], [demoOwnerless]]
    [[demoOwnerless], [demoUserFork]] (by decide)

/-- C4: on the first failed task outcome the orchestrator's collection
loop returns that single error at once: all later outcomes are ignored
(the result does not depend on them), and the run produces the error
instead of any report rows — there is never a partial-success report. -/
theorem fail_fast (first : List Repository) (pre post post' : List TaskOutcome)
    (bad : TaskOutcome) (e : RunError)
    (hpre : ∀ t ∈ pre, ∃ items, t = .success items)
    (hbad : errorOf bad = some e) :
    collectLoop first (pre ++ bad :: post) = .error e ∧
    aggregateAndReport first (pre ++ bad :: post) =
      aggregateAndReport first (pre ++ bad :: post') ∧
    aggregateAndReport first (pre ++ bad :: post) = .error e := by
  have h1 := collectLoop_first_error bad e hbad pre hpre first post
  have h2 := collectLoop_first_error bad e hbad pre hpre first post'
  refine ⟨h1, ?_, ?_⟩
  · simp [aggregateAndReport, h1, h2]
  · simp [aggregateAndReport, h1]

/-- C4 witness: a rate-limit-exhausted page failing after one successful
page makes the whole run fail with that error, whatever comes later. -/
theorem fail_fast_witness :
    collectLoop [demoOrgFork]
        ([.success [demoUserFork]] ++ .fetchFailure rateLimitErr ::
          [.success [demoOwnerless]]) = .error (.fetch rateLimitErr) ∧
    aggregateAndReport [demoOrgFork]
        ([.success [demoUserFork]] ++ .fetchFailure rateLimitErr ::
          [.success [demoOwnerless]]) =
      aggregateAndReport [demoOrgFork]
        ([.success [demoUserFork]] ++ .fetchFailure rateLimitErr :: []) ∧
    aggregateAndReport [demoOrgFork]
        ([.success [demoUserFork]] ++ .fetchFailure rateLimitErr ::
          [.success [demoOwnerless]]) = .error (.fetch rateLimitErr) :=
  fail_fast [demoOrgFork] [.success [demoUserFork]] [.success [demoOwnerless]] []
    (.fetchFailure rateLimitErr) (.fetch rateLimitErr)
    (by intro t ht; simp at ht; exact ⟨[demoUserFork], ht⟩) rfl

theorem orch_invariant (concurrency : Nat) (pages : List Nat) (s : OrchState)
    (h : Relation.ReflTransGen OrchStep (initState concurrency pages) s) :
    s.available + s.running.length = concurrency := by
  induction h with
  | refl => simp [initState]
  | tail hsteps step ih =>
      cases step with
      | spawn p rest avail run hp =>
          simp only [List.length_cons] at ih ⊢
          omega
      | complete p pend avail run₁ run₂ =>
          simp only [List.length_append, List.length_cons] at ih ⊢
          omega

theorem orchStep_inv (s s' : OrchState) (h : OrchStep s s') :
    (0 < s.available ∧ ∃ p rest, s.pending = p :: rest ∧
        s' = ⟨rest, s.available - 1, p :: s.running⟩) ∨
    (s'.pending = s.pending ∧ s'.available = s.available + 1 ∧
        s'.running.length + 1 = s.running.length) := by
  cases h with
  | spawn p rest avail run hp => exact Or.inl ⟨hp, p, rest, rfl, rfl⟩
  | complete p pend avail run₁ run₂ =>
      refine Or.inr ⟨rfl, rfl, ?_⟩
      simp only [List.length_append, List.length_cons]
      omega

/-- C5: in every reachable scheduler state, at most `concurrency` page
fetches are in flight, because each in-flight page task holds one of the
semaphore's `concurrency` permits from before its first fetch attempt
(including all retries and backoff sleeps) until its fetch resolves. -/
theorem concurrency_bound (concurrency : Nat) (pages : List Nat) (s : OrchState)
    (h : Relation.ReflTransGen OrchStep (initState concurrency pages) s) :
    s.running.length ≤ concurrency := by
  have := orch_invariant concurrency pages s h
  omega

/-- C5 witness: with 2 permits and pages 2 and 3 pending, the state after
spawning page 2 is reachable and has at most 2 fetches in flight. -/
theorem concurrency_bound_witness :
    (OrchState.mk [3] 1 [2]).running.length ≤ 2 :=
  concurrency_bound 2 [2, 3] ⟨[3], 1, [2]⟩
    (Relation.ReflTransGen.single (OrchStep.spawn 2 [3] 2 [] (by decide)))

/-- C6 counterexample: with concurrency 1 and pages 2 and 3 to spawn, the
state where page 2 is in flight, no permit is free and page 3 is still
unspawned is reachable, and from it no step empties the pending list —
the orchestrator cannot spawn page 3 until a task completes, refuting the
claim that the orchestrator spawns all per-page tasks without itself
blocking on the permit pool. -/
theorem orchestrator_blocks_counterexample :
    Relation.ReflTransGen OrchStep (initState 1 [2, 3]) ⟨[3], 0, [2]⟩ ∧
    ¬ ∃ s', OrchStep ⟨[3], 0, [2]⟩ s' ∧ s'.pending = [] := by
  constructor
  · exact Relation.ReflTransGen.single (OrchStep.spawn 2 [3] 1 [] (by decide))
  · rintro ⟨s', hstep, hpend⟩
    rcases orchStep_inv _ _ hstep with ⟨hav, _⟩ | ⟨hp, _, _⟩
    · simp at hav
    · rw [hpend] at hp
      simp at hp

/-- C6 amended: permit acquisition suspends the orchestrator, not the
spawned task: a spawn step happens only when a permit is already
available — the orchestrator awaits `acquire_owned` before `tasks.spawn` —
and the spawned page task starts in flight at once, already holding the
permit it was handed. -/
theorem orchestrator_acquires_before_spawn (s s' : OrchState) (h : OrchStep s s')
    (hspawn : s'.pending ≠ s.pending) :
    0 < s.available ∧ s'.available = s.available - 1 ∧
      ∃ p rest, s.pending = p :: rest ∧ s'.pending = rest ∧
        s'.running = p :: s.running := by
  cases h with
  | spawn p rest avail run hp => exact ⟨hp, rfl, p, rest, rfl, rfl, rfl⟩
  | complete p pend avail run₁ run₂ => exact absurd rfl hspawn

/-- C6 amended witness: spawning page 2 out of a fresh 2-permit pool
consumes one permit and puts page 2 in flight immediately. -/
theorem orchestrator_acquires_before_spawn_witness :
    0 < (OrchState.mk [2, 3] 2 []).available ∧
    (OrchState.mk [3] 1 [2]).available = (OrchState.mk [2, 3] 2 []).available - 1 ∧
      ∃ p rest, (OrchState.mk [2, 3] 2 []).pending = p :: rest ∧
        (OrchState.mk [3] 1 [2]).pending = rest ∧
        (OrchState.mk [3] 1 [2]).running = p :: (OrchState.mk [2, 3] 2 []).running :=
  orchestrator_acquires_before_spawn ⟨[2, 3], 2, []⟩ ⟨[3], 1, [2]⟩
    (OrchStep.spawn 2 [3] 2 [] (by decide)) (by decide)

/-- C7: the filtered output contains a triple exactly when some input
record has an owner of type "Organization" and the triple is that record's
projection `(owner login, fork name, url-or-empty)`; a missing `html_url`
projects to the empty string rather than failing. -/
theorem filter_projection (forks : List Repository) (t : String × String × String) :
    t ∈ filterOrgForks forks ↔
      ∃ fork ∈ forks, ∃ o, fork.owner = some o ∧ o.rtype = "Organization" ∧
        t = (o.login, fork.name, fork.html_url.getD "") := by
  simp only [filterOrgForks, List.mem_filterMap, Option.bind_eq_some]
  constructor
  · rintro ⟨fork, hmem, o, ho, hif⟩
    rw [ite_eq_iff] at hif
    rcases hif with ⟨hot, hsome⟩ | ⟨_, hnone⟩
    · exact ⟨fork, hmem, o, ho, by simpa using hot, by
        simpa using hsome.symm⟩
    · cases hnone
  · rintro ⟨fork, hmem, o, ho, hot, rfl⟩
    exact ⟨fork, hmem, o, ho, by simp [hot]⟩

/-- C7 witness: on a mixed input, the organization fork with a missing
URL projects to an empty-string URL triple. -/
theorem filter_projection_witness :
    ("acme", "forklift", "") ∈ filterOrgForks [demoOrgFork, demoUserFork] ↔
      ∃ fork ∈ [demoOrgFork, demoUserFork], ∃ o, fork.owner = some o ∧
        o.rtype = "Organization" ∧
        ("acme", "forklift", "") = (o.login, fork.name, fork.html_url.getD "") :=
  filter_projection [demoOrgFork, demoUserFork] ("acme", "forklift", "")

/-- C8: when the remote side reports no total page count or a count of
exactly 1, no page task is spawned and the run's report rows are exactly
page 1's filtered records; with an empty first page the result is the
empty collection, not an error. -/
theorem single_page (firstPage : List Repository) (total_pages : Option Nat)
    (pageOutcome : Nat → TaskOutcome) (completionOrder : List Nat)
    (horder : completionOrder.Perm (spawnedPages total_pages))
    (hsingle : total_pages = none ∨ total_pages = some 1) :
    spawnedPages total_pages = [] ∧
    runMain firstPage pageOutcome completionOrder = .ok (filterOrgForks firstPage) ∧
    (firstPage = [] → runMain firstPage pageOutcome completionOrder = .ok []) := by
  have hsp : spawnedPages total_pages = [] := by
    rcases hsingle with h | h <;> simp [h, spawnedPages]
  have hord : completionOrder = [] := by
    rw [hsp] at horder
    exact horder.eq_nil
  subst hord
  refine ⟨hsp, ?_, ?_⟩
  · simp [runMain, aggregateAndReport, collectLoop]
  · intro h
    subst h
    simp [runMain, aggregateAndReport, collectLoop, filterOrgForks]

/-- C8 witness: an absent total page count with an empty first page gives
the empty report, with nothing spawned. -/
theorem single_page_witness :
    spawnedPages none = [] ∧
    runMain [] (fun _ => .success []) [] = .ok (filterOrgForks []) ∧
    (([] : List Repository) = [] → runMain [] (fun _ => .success []) [] = .ok []) :=
  single_page [] none (fun _ => .success []) [] (by simp [spawnedPages]) (Or.inl rfl)

/-- C9: a fork record whose owner field is absent is silently dropped by
the filter: removing it from the input leaves the output unchanged, so it
neither appears in the organization list nor raises an error. -/
theorem ownerless_dropped (pre post : List Repository) (fork : Repository)
    (h : fork.owner = none) :
    filterOrgForks (pre ++ fork :: post) = filterOrgForks (pre ++ post) := by
  simp [filterOrgForks, List.filterMap_append, List.filterMap_cons, h]

/-- C9 witness: the ownerless record contributes nothing to the output. -/
theorem ownerless_dropped_witness :
    filterOrgForks ([demoOrgFork] ++ demoOwnerless :: [demoUserFork]) =
      filterOrgForks ([demoOrgFork] ++ [demoUserFork]) :=
  ownerless_dropped [demoOrgFork] [demoUserFork] demoOwnerless rfl

theorem parse_github_url_none (urlParse : String → Option ParsedUrl)
    (raw_url : String) (h : urlParse (withScheme raw_url) = none) :
    parse_github_url urlParse raw_url = .error (.InvalidUrl raw_url) := by
  unfold parse_github_url
  rw [h]

theorem parse_github_url_badDomain (urlParse : String → Option ParsedUrl)
    (raw_url : String) (p : ParsedUrl)
    (h : urlParse (withScheme raw_url) = some p)
    (hd : p.domain ≠ some "github.com") :
    parse_github_url urlParse raw_url = .error (.InvalidDomain (p.domain.getD "")) := by
  unfold parse_github_url
  rw [h]
  dsimp only
  rw [if_pos hd]

theorem parse_github_url_fewSegments (urlParse : String → Option ParsedUrl)
    (raw_url : String) (p : ParsedUrl)
    (h : urlParse (withScheme raw_url) = some p)
    (hd : p.domain = some "github.com")
    (hlen : (keptSegments p).length < 2) :
    parse_github_url urlParse raw_url =
      .error (.InvalidPathSegments (keptSegments p)) := by
  unfold parse_github_url
  rw [h]
  dsimp only
  rw [if_neg (fun hne => hne hd), dif_pos hlen]

theorem parse_github_url_ok (urlParse : String → Option ParsedUrl)
    (raw_url : String) (p : ParsedUrl) (s0 s1 : String) (rest : List String)
    (h : urlParse (withScheme raw_url) = some p)
    (hd : p.domain = some "github.com")
    (hseg : keptSegments p = s0 :: s1 :: rest) :
    parse_github_url urlParse raw_url = .ok ⟨s0, s1⟩ := by
  have hlen : ¬ (keptSegments p).length < 2 := by
    rw [hseg]
    simp
  unfold parse_github_url
  rw [h]
  dsimp only
  rw [if_neg (fun hne => hne hd), dif_neg hlen]
  congr 1
  congr 1
  · exact List.get_of_eq hseg _
  · exact List.get_of_eq hseg _

/-- C10: `parse_github_url` succeeds exactly when the input — with
"https://" prepended if it lacks an http:// or https:// scheme — parses as
a URL whose domain is exactly "github.com" and whose path keeps at least
two non-empty segments; on success it returns the first two non-empty
segments as owner and repo (extra segments ignored), and on failure it
returns InvalidUrl, InvalidDomain or InvalidPathSegments according to
which check failed first. -/
theorem parse_github_url_spec (urlParse : String → Option ParsedUrl)
    (raw_url : String) :
    ((∃ info, parse_github_url urlParse raw_url = .ok info) ↔
      ∃ p, urlParse (withScheme raw_url) = some p ∧
        p.domain = some "github.com" ∧ 2 ≤ (keptSegments p).length) ∧
    (∀ p s0 s1 rest, urlParse (withScheme raw_url) = some p →
      p.domain = some "github.com" → keptSegments p = s0 :: s1 :: rest →
      parse_github_url urlParse raw_url = .ok ⟨s0, s1⟩) ∧
    (urlParse (withScheme raw_url) = none →
      parse_github_url urlParse raw_url = .error (.InvalidUrl raw_url)) ∧
    (∀ p, urlParse (withScheme raw_url) = some p →
      p.domain ≠ some "github.com" →
      parse_github_url urlParse raw_url =
        .error (.InvalidDomain (p.domain.getD ""))) ∧
    (∀ p, urlParse (withScheme raw_url) = some p →
      p.domain = some "github.com" → (keptSegments p).length < 2 →
      parse_github_url urlParse raw_url =
        .error (.InvalidPathSegments (keptSegments p))) := by
  refine ⟨?_, ?_, parse_github_url_none urlParse raw_url,
    fun p hp => parse_github_url_badDomain urlParse raw_url p hp,
    fun p hp => parse_github_url_fewSegments urlParse raw_url p hp⟩
  · constructor
    · rintro ⟨info, hok⟩
      rcases hu : urlParse (withScheme raw_url) with _ | p
      · rw [parse_github_url_none urlParse raw_url hu] at hok
        cases hok
      · by_cases hd : p.domain = some "github.com"
        · by_cases hlen : (keptSegments p).length < 2
          · rw [parse_github_url_fewSegments urlParse raw_url p hu hd hlen] at hok
            cases hok
          · exact ⟨p, rfl, hd, by omega⟩
        · rw [parse_github_url_badDomain urlParse raw_url p hu hd] at hok
          cases hok
    · rintro ⟨p, hu, hd, hlen⟩
      rcases hks : keptSegments p with _ | ⟨s0, tl⟩
      · rw [hks] at hlen
        simp at hlen
      · rcases tl with _ | ⟨s1, rest⟩
        · rw [hks] at hlen
          simp at hlen
        · exact ⟨⟨s0, s1⟩, parse_github_url_ok urlParse raw_url p s0 s1 rest hu hd hks⟩
  · intro p s0 s1 rest hp hd hseg
    exact parse_github_url_ok urlParse raw_url p s0 s1 rest hp hd hseg

/-- C10 witness: the instantiated characterization on a concrete stubbed
parser and the input "github.com/rust-lang/rust/tree/master". -/
theorem parse_github_url_spec_witness :
    ((∃ info, parse_github_url ghUrlStub "github.com/rust-lang/rust/tree/master" =
        .ok info) ↔
      ∃ p, ghUrlStub (withScheme "github.com/rust-lang/rust/tree/master") = some p ∧
        p.domain = some "github.com" ∧ 2 ≤ (keptSegments p).length) ∧
    (∀ p s0 s1 rest,
      ghUrlStub (withScheme "github.com/rust-lang/rust/tree/master") = some p →
      p.domain = some "github.com" → keptSegments p = s0 :: s1 :: rest →
      parse_github_url ghUrlStub "github.com/rust-lang/rust/tree/master" =
        .ok ⟨s0, s1⟩) ∧
    (ghUrlStub (withScheme "github.com/rust-lang/rust/tree/master") = none →
      parse_github_url ghUrlStub "github.com/rust-lang/rust/tree/master" =
        .error (.InvalidUrl "github.com/rust-lang/rust/tree/master")) ∧
    (∀ p, ghUrlStub (withScheme "github.com/rust-lang/rust/tree/master") = some p →
      p.domain ≠ some "github.com" →
      parse_github_url ghUrlStub "github.com/rust-lang/rust/tree/master" =
        .error (.InvalidDomain (p.domain.getD ""))) ∧
    (∀ p, ghUrlStub (withScheme "github.com/rust-lang/rust/tree/master") = some p →
      p.domain = some "github.com" → (keptSegments p).length < 2 →
      parse_github_url ghUrlStub "github.com/rust-lang/rust/tree/master" =
        .error (.InvalidPathSegments (keptSegments p))) :=
  parse_github_url_spec ghUrlStub "github.com/rust-lang/rust/tree/master"

end Forklift
